import Mathlib

/-!
Shallow embedding of the process coordination subsystem of `convoy/util.py`:
the launcher variants (`subprocess_with_output`, `subprocess_nowait`,
`subprocess_nowait_pipe_stdout`) and the three polling wait operations
(`subprocess_wait_all`, `subprocess_wait_any`, `subprocess_wait_multi`).

A spawned child process is modelled by its poll behavior over discrete sweep
times: `poll()` at sweep `t` returns `none` (still running) or `some c`
(exit code `c`, which is then also the value of `returncode`).  The
unbounded `while True` polling loops are modelled with explicit fuel
(number of sweeps allowed): a loop result of `none` means the loop has not
returned within that many sweeps, and a result that is `none` for every
fuel is a wait that never completes.  `raise ValueError` is modelled by
`Except.error` with the raised message.
-/

namespace Convoy

/-- Poll behavior of one spawned process: at sweep time `t`, `p t = none`
means `poll()` reports still running; `p t = some c` means `poll()` reports
exit code `c` (and `returncode` is then `c`). -/
abbrev ProcBehavior := Nat → Option Int

/-- The Handle invariant: once the status query reports a final exit code,
it reports that same code at every later query. -/
def Stable (p : ProcBehavior) : Prop :=
  ∀ t c, p t = some c → ∀ u, t ≤ u → p u = some c

/-- The status query reports a nonzero exit code at some sweep. -/
def ReportsNonzero (p : ProcBehavior) : Prop :=
  ∃ t c, p t = some c ∧ c ≠ 0

/-- The status query never reports exit code zero. -/
def NeverZero (p : ProcBehavior) : Prop :=
  ∀ t, p t ≠ some 0

/-- The process eventually reports exit code `c`. -/
def TerminatesWith (p : ProcBehavior) (c : Int) : Prop :=
  ∃ t, p t = some c

/-- `j` is the lowest position of `ps` whose handle polls exit code `0` at
sweep time `t`: position `j` polls `0` and every earlier position does not. -/
def FirstZeroAt (ps : List ProcBehavior) (t j : Nat) : Prop :=
  (∃ p, ps[j]? = some p ∧ p t = some 0) ∧
  ∀ i, i < j → ∀ q, ps[i]? = some q → q t ≠ some 0

/-! ### `subprocess_wait_all` -/

/-- One slot update of `subprocess_wait_all`'s sweep, embedding
`if rcodes[i] is None and procs[i].poll() == 0: rcodes[i] = procs[i].returncode`:
an already-recorded slot is kept unchanged (the short-circuit `and` skips the
poll), and an empty slot is filled with the polled `returncode` exactly when
the poll reports `0`. -/
def stepSlot (r : Option Int) (pollResult : Option Int) : Option Int :=
  match r with
  | some c => some c
  | none =>
    match pollResult with
    | some c => if c = 0 then some c else none
    | none => none

/-- One polling sweep of `subprocess_wait_all` at sweep time `t`:
`for i in range(0, len(procs))`, updating every slot via `stepSlot`. -/
def waitAllSweep (t : Nat) : List ProcBehavior → List (Option Int) → List (Option Int)
  | [], _ => []
  | _ :: _, [] => []
  | p :: ps, r :: rs => stepSlot r (p t) :: waitAllSweep t ps rs

/-- Which handles one sweep of `subprocess_wait_all` polls: slot `i`'s handle
is polled exactly when `rcodes[i] is None`, because the `and` in the guard
short-circuits before `procs[i].poll()` otherwise. -/
def waitAllSweepPolls : List ProcBehavior → List (Option Int) → List Bool
  | [], _ => []
  | _ :: _, [] => []
  | _ :: ps, r :: rs => r.isNone :: waitAllSweepPolls ps rs

/-- The `while True` polling loop of `subprocess_wait_all`, with fuel: run a
sweep, return the recorded codes once every slot is filled, else sleep and
repeat at the next sweep time. -/
def subprocess_wait_all_loop (procs : List ProcBehavior) :
    Nat → Nat → List (Option Int) → Option (List Int)
  | 0, _, _ => none
  | fuel + 1, t, rcodes =>
    let rcodes2 := waitAllSweep t procs rcodes
    if rcodes2.all Option.isSome then some (rcodes2.map (fun r => r.getD 0))
    else subprocess_wait_all_loop procs fuel (t + 1) rcodes2

/-- `subprocess_wait_all(procs)`: raise `ValueError('procs is invalid')` on a
null or empty list, else poll from sweep time `0` with all slots `None`. -/
def subprocess_wait_all (procs : Option (List ProcBehavior)) (fuel : Nat) :
    Except String (Option (List Int)) :=
  match procs with
  | none => Except.error "procs is invalid"
  | some ps =>
    if ps.length = 0 then Except.error "procs is invalid"
    else Except.ok (subprocess_wait_all_loop ps fuel 0 (List.replicate ps.length none))

/-- The `rcodes` slot list after `k` sweeps of a `subprocess_wait_all` run
over `procs`, starting from the all-`None` slots at sweep time `0`. -/
def rcodesAfter (procs : List ProcBehavior) : Nat → List (Option Int)
  | 0 => List.replicate procs.length none
  | k + 1 => waitAllSweep k procs (rcodesAfter procs k)

/-! ### `subprocess_wait_any` -/

/-- The inner `for` scan of `subprocess_wait_any` (and of each group in
`subprocess_wait_multi`) at sweep time `t`: return at the first position
(offset by the running index `k`) whose handle polls exit code `0`, paired
with that handle's `returncode`. -/
def scanForZero : List ProcBehavior → Nat → Nat → Option (Nat × Int)
  | [], _, _ => none
  | p :: ps, t, k =>
    match p t with
    | some c => if c = 0 then some (k, c) else scanForZero ps t (k + 1)
    | none => scanForZero ps t (k + 1)

/-- The `while True` polling loop of `subprocess_wait_any`, with fuel. -/
def subprocess_wait_any_loop (procs : List ProcBehavior) :
    Nat → Nat → Option (Nat × Int)
  | 0, _ => none
  | fuel + 1, t =>
    match scanForZero procs t 0 with
    | some r => some r
    | none => subprocess_wait_any_loop procs fuel (t + 1)

/-- `subprocess_wait_any(procs)`: raise `ValueError('procs is invalid')` on a
null or empty list, else poll from sweep time `0` until some handle polls
exit code `0`, returning its position and return code. -/
def subprocess_wait_any (procs : Option (List ProcBehavior)) (fuel : Nat) :
    Except String (Option (Nat × Int)) :=
  match procs with
  | none => Except.error "procs is invalid"
  | some ps =>
    if ps.length = 0 then Except.error "procs is invalid"
    else Except.ok (subprocess_wait_any_loop ps fuel 0)

/-! ### `subprocess_wait_multi` -/

/-- `procs is None or len(procs) == 0`. -/
def invalidProcs : Option (List ProcBehavior) → Bool
  | none => true
  | some ps => ps.length == 0

/-- One group's scan inside a `subprocess_wait_multi` cycle: guarded by
`procs is not None and len(procs) > 0`, scan the group for a handle polling
exit code `0` and, on success, return the group list itself together with
the position and return code. -/
def groupScan (g : Option (List ProcBehavior)) (t : Nat) :
    Option (List ProcBehavior × Nat × Int) :=
  match g with
  | none => none
  | some ps =>
    if 0 < ps.length then
      match scanForZero ps t 0 with
      | some (i, c) => some (ps, i, c)
      | none => none
    else none

/-- One full polling cycle of `subprocess_wait_multi` at sweep time `t`:
scan all of group 1, and only if that finds nothing, scan group 2. -/
def multiCycle (p1 p2 : Option (List ProcBehavior)) (t : Nat) :
    Option (List ProcBehavior × Nat × Int) :=
  match groupScan p1 t with
  | some r => some r
  | none => groupScan p2 t

/-- The `while True` polling loop of `subprocess_wait_multi`, with fuel. -/
def subprocess_wait_multi_loop (p1 p2 : Option (List ProcBehavior)) :
    Nat → Nat → Option (List ProcBehavior × Nat × Int)
  | 0, _ => none
  | fuel + 1, t =>
    match multiCycle p1 p2 t with
    | some r => some r
    | none => subprocess_wait_multi_loop p1 p2 fuel (t + 1)

/-- `subprocess_wait_multi(procs1, procs2)`: raise
`ValueError('both procs1 and procs2 are invalid')` only when both groups are
null or empty, else poll from sweep time `0`. -/
def subprocess_wait_multi (p1 p2 : Option (List ProcBehavior)) (fuel : Nat) :
    Except String (Option (List ProcBehavior × Nat × Int)) :=
  if invalidProcs p1 && invalidProcs p2 then
    Except.error "both procs1 and procs2 are invalid"
  else Except.ok (subprocess_wait_multi_loop p1 p2 fuel 0)

/-! ### `subprocess_with_output` -/

/-- The failure that aborts a `subprocess_with_output` call: the `Popen`
spawn raising, or the `proc.wait()` raising. -/
inductive CallErr where
  | spawnErr
  | waitErr
deriving DecidableEq, Repr

/-- State of the `_devnull` discard sink over one `subprocess_with_output`
call: whether `open(os.devnull, 'w')` ran, and whether `_devnull.close()`
ran. -/
structure DevnullState where
  opened : Bool
  closed : Bool
deriving DecidableEq, Repr

/-- `subprocess_with_output(cmd, shell, cwd, suppress_output)`: the body of
the `try` opens the discard sink when suppression is requested, spawns, and
waits; the `finally` closes the sink whenever it was opened, on every exit
path, without touching the body's outcome.  Whether spawn or wait raises is
supplied by the oracles `spawnFails` and `waitFails`; `rc` is the child's
return code when neither raises. -/
def subprocess_with_output (suppress spawnFails waitFails : Bool) (rc : Int) :
    Except CallErr Int × DevnullState :=
  let st0 : DevnullState := { opened := false, closed := false }
  let body : Except CallErr Int × DevnullState :=
    if suppress then
      let st1 : DevnullState := { st0 with opened := true }
      if spawnFails then (Except.error CallErr.spawnErr, st1)
      else if waitFails then (Except.error CallErr.waitErr, st1)
      else (Except.ok rc, st1)
    else
      if spawnFails then (Except.error CallErr.spawnErr, st0)
      else if waitFails then (Except.error CallErr.waitErr, st0)
      else (Except.ok rc, st0)
  let st2 : DevnullState :=
    if body.2.opened then { body.2 with closed := true } else body.2
  (body.1, st2)

/-! ### `subprocess_nowait` and `subprocess_nowait_pipe_stdout` -/

/-- Wiring of one standard stream of a spawned child: inherited from the
caller (the `Popen` default), or a pipe readable/writable by the caller. -/
inductive StdStream where
  | inherit
  | pipe
deriving DecidableEq, Repr

/-- The handle returned by `subprocess.Popen`, recording the arguments the
launcher passed and the resulting stream wiring. -/
structure PopenHandle where
  cmd : String
  shell : Bool
  cwd : Option String
  env : Option (List (String × String))
  stdout : StdStream
  stderr : StdStream
  stdin : StdStream
deriving DecidableEq, Repr

/-- `subprocess_nowait(cmd, shell, cwd, env)`:
`subprocess.Popen(cmd, shell=shell, cwd=cwd, env=env)` — every standard
stream keeps the `Popen` default and is inherited from the caller. -/
def subprocess_nowait (cmd : String) (shell : Bool) (cwd : Option String)
    (env : Option (List (String × String))) : PopenHandle :=
  { cmd := cmd, shell := shell, cwd := cwd, env := env,
    stdout := StdStream.inherit, stderr := StdStream.inherit,
    stdin := StdStream.inherit }

/-- `subprocess_nowait_pipe_stdout(cmd, shell, cwd, env)`:
`subprocess.Popen(cmd, shell=shell, stdout=subprocess.PIPE, cwd=cwd, env=env)`
— standard output is piped to the caller; standard error and standard input
keep the `Popen` default and are inherited. -/
def subprocess_nowait_pipe_stdout (cmd : String) (shell : Bool)
    (cwd : Option String) (env : Option (List (String × String))) : PopenHandle :=
  { cmd := cmd, shell := shell, cwd := cwd, env := env,
    stdout := StdStream.pipe, stderr := StdStream.inherit,
    stdin := StdStream.inherit }

/-! ### Concrete poll behaviors -/

/-- A process that never terminates: every poll reports still running. -/
def stillRunning : ProcBehavior := fun _ => none

/-- A process that has already exited with code `0`: every poll reports `0`. -/
def exitsZero : ProcBehavior := fun _ => some 0

/-- A process that has already exited with code `1`: every poll reports `1`. -/
def exitsOne : ProcBehavior := fun _ => some 1

/-! ### Helper lemmas about the scans -/

/-- `scanForZero` only ever reports return code `0`: it returns at the guard
`poll() == 0`, at which point `returncode` is `0`. -/
theorem scanForZero_code_zero :
    ∀ (ps : List ProcBehavior) (t k i : Nat) (c : Int),
      scanForZero ps t k = some (i, c) → c = 0 := by
  intro ps
  induction ps with
  | nil => intro t k i c h; simp [scanForZero] at h
  | cons p ps ih =>
    intro t k i c h
    rw [scanForZero] at h
    cases hp : p t with
    | none =>
      rw [hp] at h
      exact ih t (k + 1) i c h
    | some c0 =>
      rw [hp] at h
      have h2 : (if c0 = 0 then some (k, c0) else scanForZero ps t (k + 1)) =
          some (i, c) := h
      by_cases hc : c0 = 0
      · rw [if_pos hc] at h2
        cases h2
        exact hc
      · rw [if_neg hc] at h2
        exact ih t (k + 1) i c h2

/-- If no handle in the list polls exit code `0` at sweep time `t`, the scan
falls through without returning. -/
theorem scanForZero_none_of_noZero :
    ∀ (ps : List ProcBehavior) (t k : Nat),
      (∀ p ∈ ps, p t ≠ some 0) → scanForZero ps t k = none := by
  intro ps
  induction ps with
  | nil => intro t k _; rfl
  | cons p ps ih =>
    intro t k h
    rw [scanForZero]
    cases hp : p t with
    | none =>
      exact ih t (k + 1) (fun q hq => h q (List.mem_cons_of_mem p hq))
    | some c =>
      have hc : c ≠ 0 := by
        intro hc0
        exact h p (List.mem_cons_self p ps) (by rw [hp, hc0])
      show (if c = 0 then some (k, c) else scanForZero ps t (k + 1)) = none
      rw [if_neg hc]
      exact ih t (k + 1) (fun q hq => h q (List.mem_cons_of_mem p hq))

/-- The scan returns the lowest position polling `0`, offset by the running
index, with return code `0`. -/
theorem scanForZero_first :
    ∀ (ps : List ProcBehavior) (t j k : Nat),
      FirstZeroAt ps t j → scanForZero ps t k = some (k + j, 0) := by
  intro ps
  induction ps with
  | nil =>
    intro t j k h
    rcases h.1 with ⟨p, hp, _⟩
    simp at hp
  | cons p ps ih =>
    intro t j k h
    rcases h.1 with ⟨q, hq, hq0⟩
    cases j with
    | zero =>
      rw [List.getElem?_cons_zero] at hq
      cases hq
      rw [scanForZero, hq0]
      show (if (0 : Int) = 0 then some (k, (0 : Int))
        else scanForZero ps t (k + 1)) = some (k + 0, 0)
      rw [if_pos rfl]
      simp
    | succ j =>
      have hp0 : p t ≠ some 0 :=
        h.2 0 (Nat.succ_pos j) p List.getElem?_cons_zero
      have hrest : FirstZeroAt ps t j := by
        constructor
        · exact ⟨q, by rw [List.getElem?_cons_succ] at hq; exact hq, hq0⟩
        · intro i hi r hr
          exact h.2 (i + 1) (Nat.succ_lt_succ hi) r
            (by rw [List.getElem?_cons_succ]; exact hr)
      have htail : scanForZero ps t (k + 1) = some (k + 1 + j, 0) := ih t j (k + 1) hrest
      have harith : k + 1 + j = k + (j + 1) := by omega
      rw [scanForZero]
      cases hp : p t with
      | none =>
        show scanForZero ps t (k + 1) = some (k + (j + 1), 0)
        rw [htail, harith]
      | some c =>
        have hc : c ≠ 0 := by
          intro hc0
          exact hp0 (by rw [hp, hc0])
        show (if c = 0 then some (k, c) else scanForZero ps t (k + 1)) =
          some (k + (j + 1), 0)
        rw [if_neg hc, htail, harith]

/-- A successful group scan returns the scanned group's own list as the
first component. -/
theorem groupScan_some_eq (g : Option (List ProcBehavior)) (t : Nat)
    (r : List ProcBehavior × Nat × Int) (h : groupScan g t = some r) :
    g = some r.1 ∧ scanForZero r.1 t 0 = some (r.2.1, r.2.2) := by
  cases g with
  | none => simp [groupScan] at h
  | some ps =>
    rw [groupScan] at h
    by_cases hl : 0 < ps.length
    · rw [if_pos hl] at h
      cases hs : scanForZero ps t 0 with
      | none => rw [hs] at h; cases h
      | some ic =>
        rw [hs] at h
        cases h
        exact ⟨rfl, by rw [hs]⟩
    · rw [if_neg hl] at h
      cases h

/-- If no handle of the group polls `0` at sweep time `t`, the group scan
finds nothing (also when the group is absent or empty). -/
theorem groupScan_none_of_noZero (g : Option (List ProcBehavior)) (t : Nat)
    (h : ∀ ps, g = some ps → ∀ p ∈ ps, p t ≠ some 0) :
    groupScan g t = none := by
  cases g with
  | none => rfl
  | some ps =>
    rw [groupScan]
    by_cases hl : 0 < ps.length
    · rw [if_pos hl, scanForZero_none_of_noZero ps t 0 (h ps rfl)]
    · rw [if_neg hl]

/-- A `subprocess_wait_multi_loop` result comes from a group scan of one of
the two groups. -/
theorem wait_multi_loop_group :
    ∀ (fuel t : Nat) (p1 p2 : Option (List ProcBehavior))
      (r : List ProcBehavior × Nat × Int),
      subprocess_wait_multi_loop p1 p2 fuel t = some r →
      p1 = some r.1 ∨ p2 = some r.1 := by
  intro fuel
  induction fuel with
  | zero => intro t p1 p2 r h; cases h
  | succ fuel ih =>
    intro t p1 p2 r h
    rw [subprocess_wait_multi_loop] at h
    cases hc : multiCycle p1 p2 t with
    | some x =>
      rw [hc] at h
      cases h
      rw [multiCycle] at hc
      cases h1 : groupScan p1 t with
      | some y =>
        rw [h1] at hc
        cases hc
        exact Or.inl (groupScan_some_eq p1 t r h1).1
      | none =>
        rw [h1] at hc
        exact Or.inr (groupScan_some_eq p2 t r hc).1
    | none =>
      rw [hc] at h
      exact ih (t + 1) p1 p2 r h

/-! ### Claims -/

/-- C3: `waitAll` and `waitAny` raise an invalid-argument error on a null or
empty handle collection, and `waitMulti` raises exactly when both groups are
null or empty; in every case the error is independent of the polling fuel
and of any process behavior, so it is raised before any polling. -/
theorem wait_ops_invalid_argument :
    (∀ fuel, subprocess_wait_all none fuel = Except.error "procs is invalid") ∧
    (∀ fuel, subprocess_wait_all (some []) fuel = Except.error "procs is invalid") ∧
    (∀ fuel, subprocess_wait_any none fuel = Except.error "procs is invalid") ∧
    (∀ fuel, subprocess_wait_any (some []) fuel = Except.error "procs is invalid") ∧
    (∀ p1 p2 fuel,
      (∃ s, subprocess_wait_multi p1 p2 fuel = Except.error s) ↔
        (invalidProcs p1 = true ∧ invalidProcs p2 = true)) := by
  refine ⟨fun _ => rfl, fun _ => rfl, fun _ => rfl, fun _ => rfl, ?_⟩
  intro p1 p2 fuel
  constructor
  · intro ⟨s, hs⟩
    by_cases h : invalidProcs p1 && invalidProcs p2
    · exact And.imp (fun h => h) (fun h => h) (Bool.and_eq_true _ _ |>.mp h)
    · rw [subprocess_wait_multi, if_neg h] at hs
      cases hs
  · intro ⟨h1, h2⟩
    refine ⟨"both procs1 and procs2 are invalid", ?_⟩
    rw [subprocess_wait_multi, if_pos (by rw [h1, h2]; rfl)]

/-- Witness for C3 at concrete inputs: a null collection and an
`(null, empty)` pair of groups. -/
theorem wait_ops_invalid_argument_witness :
    subprocess_wait_all none 5 = Except.error "procs is invalid" ∧
    (∃ s, subprocess_wait_multi none (some []) 5 = Except.error s) := by
  refine ⟨wait_ops_invalid_argument.1 5, ?_⟩
  exact (wait_ops_invalid_argument.2.2.2.2 none (some []) 5).mpr ⟨rfl, rfl⟩

/-- C7: on every exit path of `subprocess_with_output` (normal return, spawn
failure, wait failure) the discard sink is closed exactly when it was opened
— it is opened exactly when output suppression was requested — and the
call's outcome is exactly the body's outcome: the `finally` release never
replaces or masks an earlier error. -/
theorem with_output_devnull_released (suppress spawnFails waitFails : Bool) (rc : Int) :
    (subprocess_with_output suppress spawnFails waitFails rc).2.opened = suppress ∧
    (subprocess_with_output suppress spawnFails waitFails rc).2.closed = suppress ∧
    (subprocess_with_output suppress spawnFails waitFails rc).1 =
      (if spawnFails then Except.error CallErr.spawnErr
       else if waitFails then Except.error CallErr.waitErr
       else Except.ok rc) := by
  cases suppress <;> cases spawnFails <;> cases waitFails <;>
    exact ⟨rfl, rfl, rfl⟩

/-- C8: `subprocess_nowait_pipe_stdout` wires a pipe to the child's standard
output, while its standard error wiring equals that of `subprocess_nowait`,
namely inherited from the caller. -/
theorem nowait_pipe_stdout_wiring (cmd : String) (shell : Bool)
    (cwd : Option String) (env : Option (List (String × String))) :
    (subprocess_nowait_pipe_stdout cmd shell cwd env).stdout = StdStream.pipe ∧
    (subprocess_nowait_pipe_stdout cmd shell cwd env).stderr =
      (subprocess_nowait cmd shell cwd env).stderr ∧
    (subprocess_nowait cmd shell cwd env).stderr = StdStream.inherit :=
  ⟨rfl, rfl, rfl⟩

/-- C10: the group component `subprocess_wait_multi` returns is the handle
collection itself: a winning group scan returns the very list it scanned,
and any normal result's group component is one of the two lists passed in. -/
theorem wait_multi_group_identity :
    (∀ ps t r, groupScan (some ps) t = some r → r.1 = ps) ∧
    (∀ p1 p2 fuel r, subprocess_wait_multi p1 p2 fuel = Except.ok (some r) →
      p1 = some r.1 ∨ p2 = some r.1) := by
  constructor
  · intro ps t r h
    have := (groupScan_some_eq (some ps) t r h).1
    cases this
    rfl
  · intro p1 p2 fuel r h
    rw [subprocess_wait_multi] at h
    by_cases hc : invalidProcs p1 && invalidProcs p2
    · rw [if_pos hc] at h; cases h
    · rw [if_neg hc] at h
      injection h with h2
      exact wait_multi_loop_group fuel 0 p1 p2 r h2

/-- Witness for C10: a one-handle group that polls `0` immediately. -/
theorem wait_multi_group_identity_witness :
    ((fun _ => some 0 : ProcBehavior) :: [] , 0, (0 : Int)).1 =
      ((fun _ => some 0 : ProcBehavior) :: []) ∧
    (some ((fun _ => some 0 : ProcBehavior) :: []) =
        some ((fun _ => some 0 : ProcBehavior) :: []) ∨
      (none : Option (List ProcBehavior)) =
        some ((fun _ => some 0 : ProcBehavior) :: [])) := by
  constructor
  · exact wait_multi_group_identity.1 ((fun _ => some 0) :: []) 0
      ((fun _ => some 0 : ProcBehavior) :: [], 0, 0) rfl
  · exact wait_multi_group_identity.2 (some ((fun _ => some 0) :: [])) none 1
      ((fun _ => some 0 : ProcBehavior) :: [], 0, 0) rfl

/-- If every sweep before time `t` scans nothing and the sweep at `t`
returns `r`, the `subprocess_wait_any` loop returns `r` given enough fuel. -/
theorem wait_any_loop_reaches (procs : List ProcBehavior) (t : Nat)
    (r : Nat × Int) (hnone : ∀ u, u < t → scanForZero procs u 0 = none)
    (hsome : scanForZero procs t 0 = some r) :
    ∀ fuel t0, t0 ≤ t → t < t0 + fuel →
      subprocess_wait_any_loop procs fuel t0 = some r := by
  intro fuel
  induction fuel with
  | zero => intro t0 h1 h2; omega
  | succ fuel ih =>
    intro t0 h1 h2
    rw [subprocess_wait_any_loop]
    by_cases he : t0 = t
    · subst he
      rw [hsome]
    · have hlt : t0 < t := lt_of_le_of_ne h1 he
      rw [hnone t0 hlt]
      exact ih (t0 + 1) hlt (by omega)

/-- If every cycle before time `t` finds nothing and the cycle at `t`
returns `r`, the `subprocess_wait_multi` loop returns `r` given enough
fuel. -/
theorem wait_multi_loop_reaches (p1 p2 : Option (List ProcBehavior)) (t : Nat)
    (r : List ProcBehavior × Nat × Int)
    (hnone : ∀ u, u < t → multiCycle p1 p2 u = none)
    (hsome : multiCycle p1 p2 t = some r) :
    ∀ fuel t0, t0 ≤ t → t < t0 + fuel →
      subprocess_wait_multi_loop p1 p2 fuel t0 = some r := by
  intro fuel
  induction fuel with
  | zero => intro t0 h1 h2; omega
  | succ fuel ih =>
    intro t0 h1 h2
    rw [subprocess_wait_multi_loop]
    by_cases he : t0 = t
    · subst he
      rw [hsome]
    · have hlt : t0 < t := lt_of_le_of_ne h1 he
      rw [hnone t0 hlt]
      exact ih (t0 + 1) hlt (by omega)

/-- A group whose lowest position polling `0` at time `t` is `j` scans to
`(the group itself, j, 0)`. -/
theorem groupScan_of_first (ps : List ProcBehavior) (t j : Nat)
    (hfz : FirstZeroAt ps t j) :
    groupScan (some ps) t = some (ps, j, 0) := by
  have hlen : j < ps.length := by
    rcases hfz.1 with ⟨p, hp, _⟩
    by_contra hge
    rw [List.getElem?_eq_none (by omega)] at hp
    cases hp
  have hscan : scanForZero ps t 0 = some (0 + j, 0) := scanForZero_first ps t j 0 hfz
  rw [Nat.zero_add] at hscan
  rw [groupScan, if_pos (by omega), hscan]

/-- Nonemptiness makes a group pass the `invalidProcs` test. -/
theorem invalidProcs_false_of_ne (ps : List ProcBehavior) (h : 0 < ps.length) :
    invalidProcs (some ps) = false := by
  rw [invalidProcs]
  exact beq_eq_false_iff_ne.mpr (by omega)

/-- C5: if several handles satisfy the termination-detection condition in
the same polling sweep, `subprocess_wait_any` returns the lowest input index
among them, with that handle's return code `0`: no earlier sweep detects
anything, and at sweep `t` position `j` is the lowest one polling `0`. -/
theorem wait_any_lowest_index (procs : List ProcBehavior) (t j : Nat)
    (hpre : ∀ u, u < t → ∀ p ∈ procs, p u ≠ some 0)
    (hfz : FirstZeroAt procs t j) :
    ∀ fuel, t < fuel →
      subprocess_wait_any (some procs) fuel = Except.ok (some (j, 0)) := by
  intro fuel hfuel
  have hlen : j < procs.length := by
    rcases hfz.1 with ⟨p, hp, _⟩
    by_contra hge
    rw [List.getElem?_eq_none (by omega)] at hp
    cases hp
  have hscan : scanForZero procs t 0 = some (0 + j, 0) := scanForZero_first procs t j 0 hfz
  rw [Nat.zero_add] at hscan
  rw [subprocess_wait_any, if_neg (by omega)]
  rw [wait_any_loop_reaches procs t (j, 0)
    (fun u hu => scanForZero_none_of_noZero procs u 0 (hpre u hu)) hscan
    fuel 0 (Nat.zero_le t) (by omega)]

/-- Witness for C5: the 6-element collection of the claim, with handles at
positions 2 and 5 polling `0` in the first sweep and all others running. -/
theorem wait_any_lowest_index_witness :
    subprocess_wait_any
      (some [stillRunning, stillRunning, exitsZero,
             stillRunning, stillRunning, exitsZero]) 1 =
      Except.ok (some (2, 0)) := by
  refine wait_any_lowest_index
    [stillRunning, stillRunning, exitsZero, stillRunning, stillRunning, exitsZero]
    0 2 (fun u hu => by omega) ⟨⟨exitsZero, rfl, rfl⟩, ?_⟩ 1 (by omega)
  intro i hi q hq hcontra
  have h2 : i = 0 ∨ i = 1 := by omega
  rcases h2 with h | h <;> subst h
  · injection hq with h3
    subst h3
    exact Option.noConfusion hcontra
  · injection hq with h3
    subst h3
    exact Option.noConfusion hcontra

/-- C6: in every polling cycle `subprocess_wait_multi` scans all of group 1
before any of group 2 and returns the first handle found polling `0`: if
nothing is detected before sweep `t`, then a lowest zero-polling position
`j` in group 1 at `t` wins regardless of group 2's state at `t`, and group
2's lowest zero-polling position wins only when group 1 detects nothing at
`t`; the result carries the group, the position, and return code `0`. -/
theorem wait_multi_scan_order (ps1 ps2 : List ProcBehavior) (t : Nat)
    (hpre : ∀ u, u < t →
      (∀ p ∈ ps1, p u ≠ some 0) ∧ (∀ p ∈ ps2, p u ≠ some 0)) :
    (∀ j, FirstZeroAt ps1 t j → ∀ fuel, t < fuel →
      subprocess_wait_multi (some ps1) (some ps2) fuel =
        Except.ok (some (ps1, j, 0))) ∧
    ((∀ p ∈ ps1, p t ≠ some 0) → ∀ j, FirstZeroAt ps2 t j → ∀ fuel, t < fuel →
      subprocess_wait_multi (some ps1) (some ps2) fuel =
        Except.ok (some (ps2, j, 0))) := by
  have hcyc_none : ∀ u, u < t → multiCycle (some ps1) (some ps2) u = none := by
    intro u hu
    rw [multiCycle,
      groupScan_none_of_noZero (some ps1) u
        (fun ps heq => by injection heq with h2; subst h2; exact (hpre u hu).1),
      groupScan_none_of_noZero (some ps2) u
        (fun ps heq => by injection heq with h2; subst h2; exact (hpre u hu).2)]
  constructor
  · intro j hfz fuel hfuel
    have hlen : j < ps1.length := by
      rcases hfz.1 with ⟨p, hp, _⟩
      by_contra hge
      rw [List.getElem?_eq_none (by omega)] at hp
      cases hp
    have hcyc : multiCycle (some ps1) (some ps2) t = some (ps1, j, 0) := by
      rw [multiCycle, groupScan_of_first ps1 t j hfz]
    rw [subprocess_wait_multi,
      if_neg (by rw [invalidProcs_false_of_ne ps1 (by omega)]; simp)]
    rw [wait_multi_loop_reaches (some ps1) (some ps2) t (ps1, j, 0)
      hcyc_none hcyc fuel 0 (Nat.zero_le t) (by omega)]
  · intro h1 j hfz fuel hfuel
    have hlen : j < ps2.length := by
      rcases hfz.1 with ⟨p, hp, _⟩
      by_contra hge
      rw [List.getElem?_eq_none (by omega)] at hp
      cases hp
    have hcyc : multiCycle (some ps1) (some ps2) t = some (ps2, j, 0) := by
      rw [multiCycle,
        groupScan_none_of_noZero (some ps1) t
          (fun ps heq => by injection heq with h2; subst h2; exact h1),
        groupScan_of_first ps2 t j hfz]
    rw [subprocess_wait_multi,
      if_neg (by rw [invalidProcs_false_of_ne ps2 (by omega)]; simp)]
    rw [wait_multi_loop_reaches (some ps1) (some ps2) t (ps2, j, 0)
      hcyc_none hcyc fuel 0 (Nat.zero_le t) (by omega)]

/-- Witness for C6: group 1 holds two still-running handles, group 2 one
handle polling `0`; the call returns group 2's list, position 0, code 0. -/
theorem wait_multi_scan_order_witness :
    subprocess_wait_multi (some [stillRunning, stillRunning])
      (some [exitsZero]) 1 =
      Except.ok (some ([exitsZero], 0, 0)) := by
  refine (wait_multi_scan_order [stillRunning, stillRunning] [exitsZero] 0
      (fun u hu => by omega)).2 ?_ 0 ⟨⟨exitsZero, rfl, rfl⟩, fun i hi q hq => by omega⟩
    1 (by omega)
  intro p hp hcontra
  rcases List.mem_cons.mp hp with h | h
  · subst h
    exact Option.noConfusion hcontra
  · rcases List.mem_cons.mp h with h2 | h2
    · subst h2
      exact Option.noConfusion hcontra
    · simp at h2

/-! ### Only exit code zero is ever reported -/

/-- Every recorded `subprocess_wait_all` slot is empty or holds code `0`. -/
def SlotsZero (rs : List (Option Int)) : Prop :=
  ∀ r ∈ rs, r = none ∨ r = some 0

/-- `stepSlot` keeps slots empty-or-zero. -/
theorem stepSlot_zero (r pollResult : Option Int)
    (h : r = none ∨ r = some 0) :
    stepSlot r pollResult = none ∨ stepSlot r pollResult = some 0 := by
  rcases h with h | h <;> subst h
  · cases pollResult with
    | none => exact Or.inl rfl
    | some c =>
      by_cases hc : c = 0
      · refine Or.inr ?_
        show (if c = 0 then some c else none) = some 0
        rw [if_pos hc, hc]
      · refine Or.inl ?_
        show (if c = 0 then some c else none) = none
        rw [if_neg hc]
  · exact Or.inr rfl

/-- A sweep keeps every slot empty-or-zero. -/
theorem waitAllSweep_slotsZero :
    ∀ (ps : List ProcBehavior) (rs : List (Option Int)) (t : Nat),
      SlotsZero rs → SlotsZero (waitAllSweep t ps rs) := by
  intro ps
  induction ps with
  | nil => intro rs t _ r hr; cases rs <;> simp [waitAllSweep] at hr
  | cons p ps ih =>
    intro rs t h r hr
    cases rs with
    | nil => simp [waitAllSweep] at hr
    | cons r0 rs =>
      rw [waitAllSweep] at hr
      rcases List.mem_cons.mp hr with h2 | h2
      · subst h2
        exact stepSlot_zero r0 (p t) (h r0 (List.mem_cons_self r0 rs))
      · exact ih rs t (fun x hx => h x (List.mem_cons_of_mem r0 hx)) r h2

/-- A `subprocess_wait_all_loop` result only holds zeros, given
empty-or-zero starting slots. -/
theorem wait_all_loop_zeros (procs : List ProcBehavior) :
    ∀ (fuel t : Nat) (rs : List (Option Int)) (l : List Int),
      SlotsZero rs → subprocess_wait_all_loop procs fuel t rs = some l →
      ∀ x ∈ l, x = 0 := by
  intro fuel
  induction fuel with
  | zero => intro t rs l _ h; cases h
  | succ fuel ih =>
    intro t rs l hz h
    rw [subprocess_wait_all_loop] at h
    have hz2 : SlotsZero (waitAllSweep t procs rs) :=
      waitAllSweep_slotsZero procs rs t hz
    by_cases hall : (waitAllSweep t procs rs).all Option.isSome
    · rw [if_pos hall] at h
      injection h with h2
      subst h2
      intro x hx
      rcases List.mem_map.mp hx with ⟨r, hr, hrx⟩
      rcases hz2 r hr with h3 | h3 <;> subst h3 <;> subst hrx <;> rfl
    · rw [if_neg hall] at h
      exact ih (t + 1) (waitAllSweep t procs rs) l hz2 h

/-- A `subprocess_wait_any_loop` result carries return code `0`. -/
theorem wait_any_loop_zero (procs : List ProcBehavior) :
    ∀ (fuel t i : Nat) (c : Int),
      subprocess_wait_any_loop procs fuel t = some (i, c) → c = 0 := by
  intro fuel
  induction fuel with
  | zero => intro t i c h; cases h
  | succ fuel ih =>
    intro t i c h
    rw [subprocess_wait_any_loop] at h
    cases hs : scanForZero procs t 0 with
    | some r =>
      rw [hs] at h
      injection h with h2
      subst h2
      exact scanForZero_code_zero procs t 0 i c hs
    | none =>
      rw [hs] at h
      exact ih (t + 1) i c h

/-- A `subprocess_wait_multi_loop` result carries return code `0`. -/
theorem wait_multi_loop_zero (p1 p2 : Option (List ProcBehavior)) :
    ∀ (fuel t : Nat) (r : List ProcBehavior × Nat × Int),
      subprocess_wait_multi_loop p1 p2 fuel t = some r → r.2.2 = 0 := by
  intro fuel
  induction fuel with
  | zero => intro t r h; cases h
  | succ fuel ih =>
    intro t r h
    rw [subprocess_wait_multi_loop] at h
    cases hc : multiCycle p1 p2 t with
    | some x =>
      rw [hc] at h
      injection h with h2
      rw [h2] at hc
      rw [multiCycle] at hc
      cases h1 : groupScan p1 t with
      | some y =>
        rw [h1] at hc
        injection hc with h3
        rw [← h3]
        exact scanForZero_code_zero y.1 t 0 y.2.1 y.2.2 (groupScan_some_eq p1 t y h1).2
      | none =>
        rw [h1] at hc
        exact scanForZero_code_zero r.1 t 0 r.2.1 r.2.2 (groupScan_some_eq p2 t r hc).2
    | none =>
      rw [hc] at h
      exact ih (t + 1) r h

/-- C9: whenever a wait operation returns normally, every exit code it
reports is `0`: a `subprocess_wait_all` result list holds only zeros, and
the code component of a `subprocess_wait_any` or `subprocess_wait_multi`
result is `0`. -/
theorem wait_ops_report_only_zero :
    (∀ procs fuel l, subprocess_wait_all procs fuel = Except.ok (some l) →
      ∀ x ∈ l, x = 0) ∧
    (∀ procs fuel i c,
      subprocess_wait_any procs fuel = Except.ok (some (i, c)) → c = 0) ∧
    (∀ p1 p2 fuel r,
      subprocess_wait_multi p1 p2 fuel = Except.ok (some r) → r.2.2 = 0) := by
  refine ⟨?_, ?_, ?_⟩
  · intro procs fuel l h
    cases procs with
    | none => cases h
    | some ps =>
      rw [subprocess_wait_all] at h
      by_cases hl : ps.length = 0
      · rw [if_pos hl] at h; cases h
      · rw [if_neg hl] at h
        injection h with h2
        exact wait_all_loop_zeros ps fuel 0 (List.replicate ps.length none) l
          (fun r hr => Or.inl (List.eq_of_mem_replicate hr)) h2
  · intro procs fuel i c h
    cases procs with
    | none => cases h
    | some ps =>
      rw [subprocess_wait_any] at h
      by_cases hl : ps.length = 0
      · rw [if_pos hl] at h; cases h
      · rw [if_neg hl] at h
        injection h with h2
        exact wait_any_loop_zero ps fuel 0 i c h2
  · intro p1 p2 fuel r h
    rw [subprocess_wait_multi] at h
    by_cases hc : invalidProcs p1 && invalidProcs p2
    · rw [if_pos hc] at h; cases h
    · rw [if_neg hc] at h
      injection h with h2
      exact wait_multi_loop_zero p1 p2 fuel 0 r h2

/-- Witness for C9 at concrete calls of all three wait operations. -/
theorem wait_ops_report_only_zero_witness :
    (∀ x ∈ [(0 : Int)], x = 0) ∧ (0 : Int) = 0 ∧
      ([exitsZero], 0, (0 : Int)).2.2 = 0 := by
  refine ⟨?_, ?_, ?_⟩
  · exact wait_ops_report_only_zero.1 (some [exitsZero]) 1 [0] rfl
  · exact wait_ops_report_only_zero.2.1 (some [exitsZero]) 1 0 0 rfl
  · exact wait_ops_report_only_zero.2.2 none (some [exitsZero]) 1
      ([exitsZero], 0, 0) rfl

/-! ### A nonzero exit code is never detected -/

/-- A stable handle that reports a nonzero exit code never polls `0`. -/
theorem neverZero_of_stable_nonzero (p : ProcBehavior)
    (hst : Stable p) (hnz : ReportsNonzero p) : NeverZero p := by
  rcases hnz with ⟨t0, c, hc, hcne⟩
  intro u hu
  rcases Nat.le_total u t0 with h | h
  · have := hst u 0 hu t0 h
    rw [hc] at this
    injection this with h2
    exact hcne h2
  · have := hst t0 c hc u h
    rw [hu] at this
    injection this with h2
    exact hcne h2.symm

/-- Pointwise value of a sweep at a position present in both lists. -/
theorem waitAllSweep_getElem?_of :
    ∀ (ps : List ProcBehavior) (rs : List (Option Int)) (i t : Nat)
      (p : ProcBehavior) (r : Option Int),
      ps[i]? = some p → rs[i]? = some r →
      (waitAllSweep t ps rs)[i]? = some (stepSlot r (p t)) := by
  intro ps
  induction ps with
  | nil => intro rs i t p r hp _; simp at hp
  | cons p0 ps ih =>
    intro rs i t p r hp hr
    cases rs with
    | nil => simp at hr
    | cons r0 rs =>
      cases i with
      | zero =>
        rw [List.getElem?_cons_zero] at hp hr
        injection hp with hp2
        injection hr with hr2
        subst hp2
        subst hr2
        rw [waitAllSweep, List.getElem?_cons_zero]
      | succ i =>
        rw [List.getElem?_cons_succ] at hp hr
        rw [waitAllSweep, List.getElem?_cons_succ]
        exact ih rs i t p r hp hr

/-- Pointwise poll decision of a sweep: the handle at a position is polled
exactly when its slot is still empty. -/
theorem waitAllSweepPolls_getElem?_of :
    ∀ (ps : List ProcBehavior) (rs : List (Option Int)) (i : Nat)
      (p : ProcBehavior) (r : Option Int),
      ps[i]? = some p → rs[i]? = some r →
      (waitAllSweepPolls ps rs)[i]? = some r.isNone := by
  intro ps
  induction ps with
  | nil => intro rs i p r hp _; simp at hp
  | cons p0 ps ih =>
    intro rs i p r hp hr
    cases rs with
    | nil => simp at hr
    | cons r0 rs =>
      cases i with
      | zero =>
        rw [List.getElem?_cons_zero] at hr
        injection hr with hr2
        subst hr2
        rw [waitAllSweepPolls, List.getElem?_cons_zero]
      | succ i =>
        rw [List.getElem?_cons_succ] at hp hr
        rw [waitAllSweepPolls, List.getElem?_cons_succ]
        exact ih rs i p r hp hr

/-- A never-zero handle's empty slot stays empty across one slot update. -/
theorem stepSlot_none_of_neverZero (p : ProcBehavior) (t : Nat)
    (h : NeverZero p) : stepSlot none (p t) = none := by
  cases hp : p t with
  | none => rfl
  | some c =>
    have hc : c ≠ 0 := by
      intro hc0
      exact h t (by rw [hp, hc0])
    show (if c = 0 then some c else none) = none
    rw [if_neg hc]

/-- If some position's slot is empty and its handle never polls `0`, the
`subprocess_wait_all` loop never returns. -/
theorem wait_all_loop_stalls (procs : List ProcBehavior) (j : Nat)
    (p : ProcBehavior) (hp : procs[j]? = some p) (hnz : NeverZero p) :
    ∀ (fuel t : Nat) (rs : List (Option Int)), rs[j]? = some none →
      subprocess_wait_all_loop procs fuel t rs = none := by
  intro fuel
  induction fuel with
  | zero => intro t rs _; rfl
  | succ fuel ih =>
    intro t rs hr
    rw [subprocess_wait_all_loop]
    have hslot : (waitAllSweep t procs rs)[j]? = some none := by
      rw [waitAllSweep_getElem?_of procs rs j t p none hp hr,
        stepSlot_none_of_neverZero p t hnz]
    have hall : ¬((waitAllSweep t procs rs).all Option.isSome = true) := by
      intro hall
      have hmem : (none : Option Int) ∈ waitAllSweep t procs rs := by
        rcases List.getElem?_eq_some.mp hslot with ⟨hlt, hget⟩
        rw [← hget]
        exact List.getElem_mem hlt
      have := List.all_eq_true.mp hall (none : Option Int) hmem
      simp at this
    rw [if_neg hall]
    exact ih (t + 1) (waitAllSweep t procs rs) hslot

/-- The slot of a never-zero handle stays empty after any number of
sweeps of a `subprocess_wait_all` run. -/
theorem rcodesAfter_stays_none (procs : List ProcBehavior) (j : Nat)
    (p : ProcBehavior) (hp : procs[j]? = some p) (hnz : NeverZero p) :
    ∀ m, (rcodesAfter procs m)[j]? = some none := by
  have hj : j < procs.length := (List.getElem?_eq_some.mp hp).1
  intro m
  induction m with
  | zero =>
    rw [rcodesAfter]
    simp [hj]
  | succ m ih =>
    rw [rcodesAfter, waitAllSweep_getElem?_of procs (rcodesAfter procs m) j m p none hp ih,
      stepSlot_none_of_neverZero p m hnz]

/-- If no handle ever polls `0`, the `subprocess_wait_any` loop never
returns. -/
theorem wait_any_loop_stalls (procs : List ProcBehavior)
    (h : ∀ p ∈ procs, NeverZero p) :
    ∀ fuel t, subprocess_wait_any_loop procs fuel t = none := by
  intro fuel
  induction fuel with
  | zero => intro t; rfl
  | succ fuel ih =>
    intro t
    rw [subprocess_wait_any_loop,
      scanForZero_none_of_noZero procs t 0 (fun p hp => h p hp t)]
    exact ih (t + 1)

/-- If no handle of either group ever polls `0`, the `subprocess_wait_multi`
loop never returns. -/
theorem wait_multi_loop_stalls (ps1 ps2 : List ProcBehavior)
    (h1 : ∀ p ∈ ps1, NeverZero p) (h2 : ∀ p ∈ ps2, NeverZero p) :
    ∀ fuel t, subprocess_wait_multi_loop (some ps1) (some ps2) fuel t = none := by
  intro fuel
  induction fuel with
  | zero => intro t; rfl
  | succ fuel ih =>
    intro t
    rw [subprocess_wait_multi_loop, multiCycle,
      groupScan_none_of_noZero (some ps1) t
        (fun ps heq => by injection heq with h3; subst h3; exact fun p hp => h1 p hp t),
      groupScan_none_of_noZero (some ps2) t
        (fun ps heq => by injection heq with h3; subst h3; exact fun p hp => h2 p hp t)]
    exact ih (t + 1)

/-- C1: a handle whose status query reports a nonzero exit code is never
recognized as terminated: in `subprocess_wait_all` its slot stays empty
after every sweep and the call never completes; and if every candidate
handle of `subprocess_wait_any` or `subprocess_wait_multi` reports a
nonzero code, the call never returns a result. -/
theorem wait_nonzero_never_detected :
    (∀ (procs : List ProcBehavior) (j : Nat) (p : ProcBehavior),
      procs[j]? = some p → Stable p → ReportsNonzero p →
      (∀ m, (rcodesAfter procs m)[j]? = some none) ∧
      (∀ fuel, subprocess_wait_all (some procs) fuel = Except.ok none)) ∧
    (∀ procs : List ProcBehavior,
      (∀ p ∈ procs, Stable p ∧ ReportsNonzero p) →
      ∀ fuel r, subprocess_wait_any (some procs) fuel ≠ Except.ok (some r)) ∧
    (∀ ps1 ps2 : List ProcBehavior,
      (∀ p ∈ ps1, Stable p ∧ ReportsNonzero p) →
      (∀ p ∈ ps2, Stable p ∧ ReportsNonzero p) →
      ∀ fuel r,
        subprocess_wait_multi (some ps1) (some ps2) fuel ≠
          Except.ok (some r)) := by
  refine ⟨?_, ?_, ?_⟩
  · intro procs j p hp hst hnz
    have hnv : NeverZero p := neverZero_of_stable_nonzero p hst hnz
    have hj : j < procs.length := (List.getElem?_eq_some.mp hp).1
    refine ⟨rcodesAfter_stays_none procs j p hp hnv, ?_⟩
    intro fuel
    rw [subprocess_wait_all, if_neg (by omega)]
    rw [wait_all_loop_stalls procs j p hp hnv fuel 0
      (List.replicate procs.length none) (by simp [hj])]
  · intro procs h fuel r
    have hnv : ∀ p ∈ procs, NeverZero p := fun p hp =>
      neverZero_of_stable_nonzero p (h p hp).1 (h p hp).2
    rw [subprocess_wait_any]
    by_cases hl : procs.length = 0
    · rw [if_pos hl]
      intro hcontra
      cases hcontra
    · rw [if_neg hl, wait_any_loop_stalls procs hnv fuel 0]
      intro hcontra
      injection hcontra with h2
      cases h2
  · intro ps1 ps2 h1 h2 fuel r
    have hnv1 : ∀ p ∈ ps1, NeverZero p := fun p hp =>
      neverZero_of_stable_nonzero p (h1 p hp).1 (h1 p hp).2
    have hnv2 : ∀ p ∈ ps2, NeverZero p := fun p hp =>
      neverZero_of_stable_nonzero p (h2 p hp).1 (h2 p hp).2
    rw [subprocess_wait_multi]
    by_cases hc : invalidProcs (some ps1) && invalidProcs (some ps2)
    · rw [if_pos hc]
      intro hcontra
      cases hcontra
    · rw [if_neg hc, wait_multi_loop_stalls ps1 ps2 hnv1 hnv2 fuel 0]
      intro hcontra
      injection hcontra with h3
      cases h3

/-- Witness for C1: a single handle that has exited with code `1`: its slot
stays empty, `subprocess_wait_all` never completes, and none of the wait
operations ever returns a result. -/
theorem wait_nonzero_never_detected_witness :
    ((rcodesAfter [exitsOne] 3)[0]? = some none ∧
      subprocess_wait_all (some [exitsOne]) 7 = Except.ok none) ∧
    subprocess_wait_any (some [exitsOne]) 7 ≠ Except.ok (some (0, 1)) ∧
    subprocess_wait_multi (some [exitsOne]) (some [exitsOne]) 7 ≠
      Except.ok (some ([exitsOne], 0, 1)) := by
  have hstable : Stable exitsOne := by
    intro t c hc u _
    exact hc
  have hnz : ReportsNonzero exitsOne := ⟨0, 1, rfl, by omega⟩
  have hall : ∀ p ∈ [exitsOne], Stable p ∧ ReportsNonzero p := by
    intro p hp
    rcases List.mem_cons.mp hp with h | h
    · subst h
      exact ⟨hstable, hnz⟩
    · simp at h
  refine ⟨?_, ?_, ?_⟩
  · have h := (wait_nonzero_never_detected.1 [exitsOne] 0 exitsOne rfl hstable hnz)
    exact ⟨h.1 3, h.2 7⟩
  · exact wait_nonzero_never_detected.2.1 [exitsOne] hall 7 (0, 1)
  · exact wait_nonzero_never_detected.2.2 [exitsOne] [exitsOne] hall hall 7
      ([exitsOne], 0, 1)

/-! ### `subprocess_wait_all` termination on all-zero collections -/

/-- A sweep's length is the shorter of its two inputs. -/
theorem waitAllSweep_length :
    ∀ (ps : List ProcBehavior) (rs : List (Option Int)) (t : Nat),
      (waitAllSweep t ps rs).length = min ps.length rs.length := by
  intro ps
  induction ps with
  | nil => intro rs t; cases rs <;> simp [waitAllSweep]
  | cons p ps ih =>
    intro rs t
    cases rs with
    | nil => simp [waitAllSweep]
    | cons r rs =>
      rw [waitAllSweep]
      simp [List.length_cons, ih rs t, Nat.succ_min_succ]

/-- When every handle polls `0` at time `t`, the sweep fills every slot. -/
theorem waitAllSweep_all_zero :
    ∀ (ps : List ProcBehavior) (rs : List (Option Int)) (t : Nat),
      rs.length = ps.length → SlotsZero rs → (∀ p ∈ ps, p t = some 0) →
      waitAllSweep t ps rs = List.replicate ps.length (some 0) := by
  intro ps
  induction ps with
  | nil =>
    intro rs t hlen _ _
    cases rs with
    | nil => rfl
    | cons r rs => simp at hlen
  | cons p ps ih =>
    intro rs t hlen hz hall
    cases rs with
    | nil => simp at hlen
    | cons r rs =>
      rw [waitAllSweep, List.length_cons, List.replicate_succ]
      have h1 : stepSlot r (p t) = some 0 := by
        rcases hz r (List.mem_cons_self r rs) with h | h <;> subst h
        · show stepSlot none (p t) = some 0
          rw [hall p (List.mem_cons_self p ps)]
          show (if (0 : Int) = 0 then some (0 : Int) else none) = some 0
          rw [if_pos rfl]
        · rfl
      rw [h1,
        ih rs t (by simpa using hlen)
          (fun x hx => hz x (List.mem_cons_of_mem r hx))
          (fun q hq => hall q (List.mem_cons_of_mem p hq))]

/-- A finite collection of handles that each eventually always poll `0` has
a common time after which they all poll `0`. -/
theorem exists_common_zero_time :
    ∀ ps : List ProcBehavior,
      (∀ p ∈ ps, ∃ T, ∀ u, T ≤ u → p u = some 0) →
      ∃ T, ∀ p ∈ ps, ∀ u, T ≤ u → p u = some 0 := by
  intro ps
  induction ps with
  | nil => intro _; exact ⟨0, fun p hp => by simp at hp⟩
  | cons p ps ih =>
    intro h
    rcases h p (List.mem_cons_self p ps) with ⟨T1, hT1⟩
    rcases ih (fun q hq => h q (List.mem_cons_of_mem p hq)) with ⟨T2, hT2⟩
    refine ⟨max T1 T2, fun q hq u hu => ?_⟩
    rcases List.mem_cons.mp hq with h2 | h2
    · subst h2
      exact hT1 u (le_trans (le_max_left T1 T2) hu)
    · exact hT2 q h2 u (le_trans (le_max_right T1 T2) hu)

/-- Once all handles poll `0` from time `T` on, the loop returns the
all-zero code list, given fuel reaching past `T`. -/
theorem wait_all_loop_fills (procs : List ProcBehavior) (T : Nat)
    (hT : ∀ p ∈ procs, ∀ u, T ≤ u → p u = some 0) :
    ∀ (fuel t : Nat) (rs : List (Option Int)),
      rs.length = procs.length → SlotsZero rs → T ≤ t + fuel →
      subprocess_wait_all_loop procs (fuel + 1) t rs =
        some (List.replicate procs.length 0) := by
  intro fuel
  induction fuel with
  | zero =>
    intro t rs hlen hz hTt
    rw [subprocess_wait_all_loop]
    have hsweep : waitAllSweep t procs rs = List.replicate procs.length (some 0) :=
      waitAllSweep_all_zero procs rs t hlen hz (fun p hp => hT p hp t (by omega))
    rw [hsweep]
    have hall : (List.replicate procs.length (some (0 : Int))).all Option.isSome = true := by
      rw [List.all_eq_true]
      intro x hx
      rw [List.eq_of_mem_replicate hx]
      rfl
    rw [if_pos hall]
    simp [List.map_replicate]
  | succ fuel ih =>
    intro t rs hlen hz hTt
    rw [subprocess_wait_all_loop]
    have hz2 : SlotsZero (waitAllSweep t procs rs) :=
      waitAllSweep_slotsZero procs rs t hz
    have hlen2 : (waitAllSweep t procs rs).length = procs.length := by
      rw [waitAllSweep_length, hlen, Nat.min_self]
    by_cases hall : (waitAllSweep t procs rs).all Option.isSome
    · rw [if_pos hall]
      have heq : waitAllSweep t procs rs = List.replicate procs.length (some 0) := by
        refine List.eq_replicate_iff.mpr ⟨hlen2, fun b hb => ?_⟩
        rcases hz2 b hb with h | h
        · have := List.all_eq_true.mp hall b hb
          rw [h] at this
          simp at this
        · exact h
      rw [heq]
      simp [List.map_replicate]
    · rw [if_neg hall]
      exact ih (t + 1) (waitAllSweep t procs rs) hlen2 hz2 (by omega)

/-- C2: for a non-empty collection of `N` handles that all eventually
terminate with exit code `0` (stably, whatever the completion order),
`subprocess_wait_all` completes and returns the ordered list of `N` zeros,
position `i` of the result standing for position `i` of the input. -/
theorem wait_all_returns_ordered_zeros (procs : List ProcBehavior)
    (hne : 0 < procs.length)
    (hall : ∀ p ∈ procs, Stable p ∧ TerminatesWith p 0) :
    ∃ fuel, subprocess_wait_all (some procs) fuel =
      Except.ok (some (List.replicate procs.length 0)) := by
  have hcz : ∀ p ∈ procs, ∃ T, ∀ u, T ≤ u → p u = some 0 := by
    intro p hp
    rcases hall p hp with ⟨hst, t0, ht0⟩
    exact ⟨t0, fun u hu => hst t0 0 ht0 u hu⟩
  rcases exists_common_zero_time procs hcz with ⟨T, hT⟩
  refine ⟨T + 1, ?_⟩
  rw [subprocess_wait_all, if_neg (by omega)]
  rw [wait_all_loop_fills procs T hT T 0 (List.replicate procs.length none)
    (by simp) (fun r hr => Or.inl (List.eq_of_mem_replicate hr)) (by omega)]

/-- Witness for C2: two handles that have both exited with code `0`. -/
theorem wait_all_returns_ordered_zeros_witness :
    ∃ fuel, subprocess_wait_all (some [exitsZero, exitsZero]) fuel =
      Except.ok (some (List.replicate 2 0)) := by
  have hprocs : ∀ p ∈ [exitsZero, exitsZero], Stable p ∧ TerminatesWith p 0 := by
    intro p hp
    have hgood : Stable exitsZero ∧ TerminatesWith exitsZero 0 :=
      ⟨fun t c hc u _ => hc, 0, rfl⟩
    rcases List.mem_cons.mp hp with h | h
    · subst h
      exact hgood
    · rcases List.mem_cons.mp h with h2 | h2
      · subst h2
        exact hgood
      · simp at h2
  exact wait_all_returns_ordered_zeros [exitsZero, exitsZero] (by simp) hprocs

/-! ### At-most-once capture in `subprocess_wait_all` -/

/-- C4: once a `subprocess_wait_all` run has recorded an exit code into a
slot, every later sweep keeps that slot's recorded value unchanged and does
not poll that slot's handle again (its poll decision is `false`). -/
theorem wait_all_at_most_once_capture (procs : List ProcBehavior)
    (k i : Nat) (c : Int)
    (h : (rcodesAfter procs k)[i]? = some (some c)) :
    ∀ m, k ≤ m →
      (rcodesAfter procs m)[i]? = some (some c) ∧
      (waitAllSweepPolls procs (rcodesAfter procs m))[i]? = some false := by
  have hlen : ∀ n, (rcodesAfter procs n).length = procs.length := by
    intro n
    induction n with
    | zero => simp [rcodesAfter]
    | succ n ih => rw [rcodesAfter, waitAllSweep_length, ih, Nat.min_self]
  have hi : i < procs.length := by
    have h2 := (List.getElem?_eq_some.mp h).1
    rwa [hlen k] at h2
  rcases (⟨procs[i], List.getElem?_eq_getElem hi⟩ : ∃ p, procs[i]? = some p) with ⟨p, hp⟩
  have hslot : ∀ m, k ≤ m → (rcodesAfter procs m)[i]? = some (some c) := by
    intro m hm
    induction m, hm using Nat.le_induction with
    | base => exact h
    | succ m hm ih =>
      rw [rcodesAfter]
      exact waitAllSweep_getElem?_of procs (rcodesAfter procs m) i m p (some c) hp ih
  intro m hm
  refine ⟨hslot m hm, ?_⟩
  exact waitAllSweepPolls_getElem?_of procs (rcodesAfter procs m) i p (some c) hp
    (hslot m hm)

/-- Witness for C4: after the first sweep over one already-exited handle,
its slot holds `0` and the following sweep does not poll it. -/
theorem wait_all_at_most_once_capture_witness :
    (rcodesAfter [exitsZero] 1)[0]? = some (some 0) ∧
    (waitAllSweepPolls [exitsZero] (rcodesAfter [exitsZero] 1))[0]? = some false :=
  wait_all_at_most_once_capture [exitsZero] 1 0 0 rfl 1 (le_refl 1)

end Convoy
